import Mathlib

/-!
Verification of the task-tracker core (`src/cli.py`).

The store state is modelled as the list of `Task` records held in the
backing JSON file; timestamps (`datetime`) are modelled as abstract `Nat`
time points, and each call of `datetime.now()` in the Python code becomes
an explicit `now : Nat` argument.  Python list indexing (which wraps
negative indices and raises `IndexError` out of range) is modelled by
`pyIndex` / `pyGet` / `pySet`, and `list.insert` (which clamps its index)
by `pyInsert`.  Fallible operations return `Option` / `Except`.
-/

/-! The file layer: `Task.to_dict` / `Task.from_dict` and `load_tasks`
on raw backing-file contents.  A timestamp string is modelled abstractly
as either a valid ISO-8601 rendering of a time point (`TimeStr.iso t`) or
an invalid string (`TimeStr.bad s`); `datetime.isoformat` produces the
former, and `datetime.fromisoformat` succeeds exactly on the former. -/

namespace TaskTracker

/-- The `Task` dataclass of `src/cli.py` (lines 20-28).  `id` is a Python
int (may be negative in adversarial records), timestamps are abstract
time points. -/
structure Task where
  id : Int
  description : String
  status : String
  createdAt : Nat
  updatedAt : Nat
  isDeleted : Bool
deriving DecidableEq, Repr

/-- Python list read-index resolution: a nonnegative index `i` is valid iff
`i < len`; a negative index addresses `len - |i|` and is valid iff
`|i| ≤ len`.  `none` models `IndexError`. -/
def pyIndex (len : Nat) (i : Int) : Option Nat :=
  if 0 ≤ i then
    if i.toNat < len then some i.toNat else none
  else
    if i.natAbs ≤ len then some (len - i.natAbs) else none

/-- Python `l[i]` on a list of tasks. -/
def pyGet (l : List Task) (i : Int) : Option Task :=
  (pyIndex l.length i).bind fun n => l.get? n

/-- Python `l[i] = x` on a list of tasks; `none` models `IndexError`. -/
def pySet (l : List Task) (i : Int) (x : Task) : Option (List Task) :=
  (pyIndex l.length i).map fun n => l.set n x

/-- Python `l.insert(i, x)`: the insertion point is clamped into
`[0, len]` (never raises). -/
def pyInsert (l : List Task) (i : Int) (x : Task) : List Task :=
  let n := if 0 ≤ i then min i.toNat l.length else l.length - min i.natAbs l.length
  l.take n ++ x :: l.drop n

/-- Model of `TaskStore.save_task` (src/cli.py lines 94-102): reload the sequence,
stamp `updatedAt := now`, then insert at `task.id - 1` when the sequence
is shorter than `task.id`, else overwrite position `task.id - 1`.
`none` models the `IndexError` the item assignment can raise. -/
def save_task (tasks : List Task) (task : Task) (now : Nat) : Option (List Task) :=
  let task := { task with updatedAt := now }
  if (tasks.length : Int) < task.id then
    some (pyInsert tasks (task.id - 1) task)
  else
    pySet tasks (task.id - 1) task

/-- Model of `TaskStore.get_task` (src/cli.py lines 104-114): fetch `tasks[task_id-1]`;
`IndexError` and the soft-deleted case both become `TaskNotFound`,
modelled as `none`. -/
def get_task (tasks : List Task) (task_id : Int) : Option Task :=
  match pyGet tasks (task_id - 1) with
  | none => none
  | some t => if t.isDeleted then none else some t

/-- Model of `TaskStore.get_num_of_tasks` (src/cli.py lines 91-92). -/
def get_num_of_tasks (tasks : List Task) : Nat :=
  tasks.length

/-- Model of `TaskManager.list_tasks` (src/cli.py lines 121-130): keep the tasks
whose status is in the allowed set and which are not soft-deleted. -/
def list_tasks (tasks : List Task) (status : Option String) : List Task :=
  let allowed : List String :=
    match status with
    | none => ["todo", "in-progress", "done"]
    | some s => [s]
  tasks.filter fun t => decide (t.status ∈ allowed) && t.isDeleted == false

/-- Model of `TaskManager.add_task` (src/cli.py lines 132-146): build a task with
id `count + 1`, status `todo`, `createdAt := nowC`, `updatedAt := nowU`
(the two separate `datetime.now()` calls), save it (which re-stamps
`updatedAt := nowS`), return `true`; any exception is swallowed into
`false` with the file unwritten. -/
def add_task (tasks : List Task) (description : String) (nowC nowU nowS : Nat) :
    List Task × Bool :=
  let task : Task :=
    { id := (tasks.length : Int) + 1, description := description, status := "todo",
      createdAt := nowC, updatedAt := nowU, isDeleted := false }
  match save_task tasks task nowS with
  | some tasks' => (tasks', true)
  | none => (tasks, false)

/-- Model of `TaskManager.remove_task` (src/cli.py lines 148-156): fetch, mark
`isDeleted`, save.  Only `TaskNotFound` is caught (→ `some (tasks, false)`);
an `IndexError` escaping `save_task` propagates (→ `none`, file unwritten). -/
def remove_task (tasks : List Task) (task_id : Int) (now : Nat) :
    Option (List Task × Bool) :=
  match get_task tasks task_id with
  | none => some (tasks, false)
  | some t =>
    match save_task tasks { t with isDeleted := true } now with
    | some tasks' => some (tasks', true)
    | none => none

/-- Model of `TaskManager.update_task_status` (src/cli.py lines 158-166): fetch, set
the status, save; every exception is swallowed into `false`. -/
def update_task_status (tasks : List Task) (task_id : Int) (status : String) (now : Nat) :
    List Task × Bool :=
  match get_task tasks task_id with
  | none => (tasks, false)
  | some t =>
    match save_task tasks { t with status := status } now with
    | some tasks' => (tasks', true)
    | none => (tasks, false)

/-- A string standing in a timestamp position of a record: either a valid
ISO-8601 rendering of a time point or an arbitrary invalid string. -/
inductive TimeStr where
  | iso (t : Nat)
  | bad (s : String)
deriving DecidableEq, Repr

/-- The Python exceptions that can arise while building a `Task` from a
parsed record: `KeyError` from a missing dict key, `ValueError` from
`datetime.fromisoformat` on a malformed string. -/
inductive PyExc where
  | keyError
  | valueError
deriving DecidableEq, Repr

/-- Model of `datetime.fromisoformat`: succeeds exactly on valid ISO
strings. -/
def fromisoformat : TimeStr → Option Nat
  | .iso t => some t
  | .bad _ => none

/-- Model of `datetime.isoformat`. -/
def isoformat (t : Nat) : TimeStr := .iso t

/-- A parsed JSON record as `Task.from_dict` receives it: each expected
key may be absent. -/
structure TaskRecord where
  idKey : Option Int
  descriptionKey : Option String
  statusKey : Option String
  createdAtKey : Option TimeStr
  updatedAtKey : Option TimeStr
  isDeletedKey : Option Bool
deriving DecidableEq, Repr

/-- Python `data[key]`: raises `KeyError` when the key is absent. -/
def getKey {α : Type} : Option α → Except PyExc α
  | none => .error .keyError
  | some v => .ok v

/-- The `datetime.fromisoformat(data[key])` step of `from_dict`: a present
but malformed timestamp string raises `ValueError`. -/
def parseTime (ts : TimeStr) : Except PyExc Nat :=
  match fromisoformat ts with
  | some t => .ok t
  | none => .error .valueError

/-- Model of `Task.from_dict` (src/cli.py lines 40-49); the keyword arguments are
evaluated left to right, so the first failing field determines the
exception. -/
def from_dict (r : TaskRecord) : Except PyExc Task := do
  let i ← getKey r.idKey
  let d ← getKey r.descriptionKey
  let s ← getKey r.statusKey
  let c ← parseTime (← getKey r.createdAtKey)
  let u ← parseTime (← getKey r.updatedAtKey)
  let del ← getKey r.isDeletedKey
  pure { id := i, description := d, status := s, createdAt := c,
         updatedAt := u, isDeleted := del }

/-- Model of `Task.to_dict` (src/cli.py lines 30-38). -/
def to_dict (t : Task) : TaskRecord :=
  { idKey := some t.id, descriptionKey := some t.description,
    statusKey := some t.status, createdAtKey := some (isoformat t.createdAt),
    updatedAtKey := some (isoformat t.updatedAt), isDeletedKey := some t.isDeleted }

/-- The raw backing file: absent, present but not parseable as JSON, or a
JSON array of records. -/
inductive FileContent where
  | absent
  | invalidJson (s : String)
  | records (rs : List TaskRecord)
deriving DecidableEq, Repr

/-- The file `TaskStore.init` writes: an empty JSON array. -/
def emptyFile : FileContent := .records []

/-- The list comprehension `[Task.from_dict(task) for task in tasks]`:
stops at the first record whose conversion raises. -/
def parseAll : List TaskRecord → Except PyExc (List Task)
  | [] => .ok []
  | r :: rs => do
    let t ← from_dict r
    let ts ← parseAll rs
    pure (t :: ts)

/-- Model of `TaskStore.load_tasks` (src/cli.py lines 71-89) at the file level:
initialize when absent; catch `JSONDecodeError` (unparseable file) and
`KeyError` (missing field) by re-initializing and returning `[]`; any
other exception (`ValueError` from a malformed timestamp) propagates with
the file left as it was.  Returns the resulting file content together
with the outcome. -/
def load_tasks_file (fc : FileContent) : FileContent × Except PyExc (List Task) :=
  match fc with
  | .absent => (emptyFile, .ok [])
  | .invalidJson _ => (emptyFile, .ok [])
  | .records rs =>
    match parseAll rs with
    | .ok ts => (.records rs, .ok ts)
    | .error .keyError => (emptyFile, .ok [])
    | .error .valueError => (.records rs, .error .valueError)

/-- Positional-id well-formedness: the task stored at position `j` carries
id `j + 1` (the spec's positional-identity invariant, which every state
reachable through the Manager satisfies). -/
def WellFormed (tasks : List Task) : Prop :=
  ∀ j : Nat, ∀ hj : j < tasks.length, (tasks.get ⟨j, hj⟩).id = (j : Int) + 1

instance (tasks : List Task) : Decidable (WellFormed tasks) :=
  Nat.decidableBallLT tasks.length _

/-- A file is healable when it holds no record that raises `ValueError`. -/
def healable (fc : FileContent) : Bool :=
  match fc with
  | .records rs =>
    match parseAll rs with
    | .error .valueError => false
    | _ => true
  | _ => true

/-- A file is broken in the sense of the spec when it is unparseable as
JSON or some record is missing a required field (and no earlier record
raises `ValueError`). -/
def brokenFile (fc : FileContent) : Bool :=
  match fc with
  | .absent => false
  | .invalidJson _ => true
  | .records rs =>
    match parseAll rs with
    | .error .keyError => true
    | _ => false

/-- The arithmetic form of Python index resolution: a negative index `i`
addresses `len + i`. -/
def pyResolved (len : Nat) (i : Int) : Int :=
  if 0 ≤ i then i else (len : Int) + i

/-- One step of the Manager from a store state with a monotone wall
clock: the second component is a lower bound on every later
`datetime.now()` reading. -/
inductive ManagerStep : List Task × Nat → List Task × Nat → Prop where
  | addStep (ts : List Task) (clk : Nat) (d : String) (n1 n2 n3 : Nat)
      (h1 : clk ≤ n1) (h2 : n1 ≤ n2) (h3 : n2 ≤ n3) :
      ManagerStep (ts, clk) ((add_task ts d n1 n2 n3).1, n3)
  | removeStep (ts : List Task) (clk : Nat) (id : Int) (n : Nat)
      (ts' : List Task) (b : Bool) (h : clk ≤ n)
      (hr : remove_task ts id n = some (ts', b)) :
      ManagerStep (ts, clk) (ts', n)
  | updateStep (ts : List Task) (clk : Nat) (id : Int) (s : String) (n : Nat)
      (h : clk ≤ n) :
      ManagerStep (ts, clk) ((update_task_status ts id s n).1, n)

/-- The store states reachable from an empty store through the Manager
operations. -/
inductive ManagerReachable : List Task × Nat → Prop where
  | empty : ManagerReachable ([], 0)
  | step {st st' : List Task × Nat} (h : ManagerReachable st)
      (hs : ManagerStep st st') : ManagerReachable st'

/-- The strengthened step invariant: timestamps are ordered and bounded
by the clock. -/
def ClockInv (st : List Task × Nat) : Prop :=
  ∀ t ∈ st.1, t.createdAt ≤ t.updatedAt ∧ t.updatedAt ≤ st.2

theorem wellFormed_id {tasks : List Task} (h : WellFormed tasks) (j : Nat)
    (hj : j < tasks.length) : tasks[j].id = (j : Int) + 1 :=
  h j hj

theorem pyInsert_append (l : List Task) (x : Task) (i : Int)
    (h : (l.length : Int) ≤ i) : pyInsert l i x = l ++ [x] := by
  have h0 : 0 ≤ i := le_trans (by positivity) h
  have hlen : l.length ≤ i.toNat := by omega
  simp [pyInsert, h0, Nat.min_eq_right hlen]

theorem pyGet_coe (l : List Task) (i : Nat) (h : i < l.length) :
    pyGet l (i : Int) = some (l.get ⟨i, h⟩) := by
  simp [pyGet, pyIndex, h, List.get?_eq_get h]

theorem pySet_coe (l : List Task) (i : Nat) (h : i < l.length) (x : Task) :
    pySet l (i : Int) x = some (l.set i x) := by
  simp [pySet, pyIndex, h]

/-- C1: adding a description builds a task whose id is the record count
(soft-deleted ones included) plus 1, with status todo and isDeleted
false, appends it to the store, returns true, and a subsequent list()
with no filter contains a task with that description and status todo. -/
theorem add_task_spec (tasks : List Task) (desc : String) (nowC nowU nowS : Nat) :
    (add_task tasks desc nowC nowU nowS).2 = true ∧
    (add_task tasks desc nowC nowU nowS).1 =
      tasks ++ [Task.mk ((get_num_of_tasks tasks : Int) + 1) desc "todo" nowC nowS false] ∧
    ∃ t ∈ list_tasks (add_task tasks desc nowC nowU nowS).1 none,
      t.description = desc ∧ t.status = "todo" := by
  have hlt : (tasks.length : Int) < (tasks.length : Int) + 1 := by omega
  have hsave : save_task tasks
      (Task.mk ((tasks.length : Int) + 1) desc "todo" nowC nowU false) nowS =
      some (tasks ++ [Task.mk ((tasks.length : Int) + 1) desc "todo" nowC nowS false]) := by
    simp only [save_task, hlt, if_pos]
    rw [pyInsert_append]
    omega
  refine ⟨?_, ?_, ?_⟩
  · simp [add_task, hsave]
  · simp [add_task, hsave, get_num_of_tasks]
  · refine ⟨Task.mk ((tasks.length : Int) + 1) desc "todo" nowC nowS false, ?_, rfl, rfl⟩
    simp [add_task, hsave, list_tasks]

/-- A record whose fields all round-trip from a task parses back to it. -/
theorem from_dict_to_dict (t : Task) : from_dict (to_dict t) = .ok t := rfl

theorem parseAll_map_to_dict (l : List Task) :
    parseAll (l.map to_dict) = .ok l := by
  induction l with
  | nil => rfl
  | cons t ts ih =>
    simp only [List.map, parseAll, from_dict_to_dict, ih]
    rfl

/-- C2 amended: when no record raises ValueError, loading succeeds; and on
a JSON-unparseable file or a record missing a required field the store is
reinitialized empty and an empty sequence is returned. -/
theorem load_tasks_selfheal (fc : FileContent) (h : healable fc = true) :
    (∃ ts, (load_tasks_file fc).2 = .ok ts) ∧
    (brokenFile fc = true → load_tasks_file fc = (emptyFile, .ok [])) := by
  cases fc with
  | absent => exact ⟨⟨[], rfl⟩, by simp [brokenFile]⟩
  | invalidJson s => exact ⟨⟨[], rfl⟩, fun _ => rfl⟩
  | records rs =>
    cases hp : parseAll rs with
    | ok ts =>
      refine ⟨⟨ts, ?_⟩, ?_⟩
      · simp [load_tasks_file, hp]
      · simp [brokenFile, hp]
    | error e =>
      cases e with
      | keyError =>
        refine ⟨⟨[], ?_⟩, fun _ => ?_⟩ <;> simp [load_tasks_file, hp]
      | valueError => simp [healable, hp] at h

/-- C2 counterexample: a record with every field present but a malformed
`createdAt` string makes `load_tasks` raise `ValueError` to the caller. -/
theorem load_tasks_raises_on_bad_timestamp :
    (load_tasks_file (.records [TaskRecord.mk (some 1) (some "buy milk")
        (some "todo") (some (.bad "not-a-date")) (some (.iso 0))
        (some false)])).2 = .error .valueError := rfl

/-- C2 witness: a JSON-unparseable file self-heals. -/
theorem load_tasks_selfheal_witness :
    healable (.invalidJson "garbage") = true ∧
    ((∃ ts, (load_tasks_file (.invalidJson "garbage")).2 = .ok ts) ∧
     (brokenFile (.invalidJson "garbage") = true →
       load_tasks_file (.invalidJson "garbage") = (emptyFile, .ok []))) :=
  ⟨by decide, load_tasks_selfheal _ (by decide)⟩

theorem get_task_eq_bind (tasks : List Task) (id : Int) :
    get_task tasks id =
      (pyGet tasks (id - 1)).bind fun t => if t.isDeleted then none else some t := by
  unfold get_task
  cases pyGet tasks (id - 1) <;> rfl

theorem pyIndex_eq_resolved (len : Nat) (i : Int) :
    pyIndex len i =
      if 0 ≤ pyResolved len i ∧ pyResolved len i < (len : Nat) then
        some (pyResolved len i).toNat
      else none := by
  unfold pyIndex pyResolved
  rcases le_or_lt 0 i with h | h
  · simp only [if_pos h]
    split_ifs with h1 h2 h3 <;>
      first | rfl | (exfalso; omega) | (congr 1 <;> omega)
  · simp only [if_neg (not_le.mpr h)]
    split_ifs with h1 h2 h3 <;>
      first | rfl | (exfalso; omega) | (congr 1 <;> omega)

/-- C3 amended: getById fails with TaskNotFound iff the Python-resolved
index of `id - 1` (negative values addressing from the end of the
sequence) is out of range or the task there is soft-deleted; otherwise it
returns the task at the resolved index. -/
theorem get_task_index_semantics (tasks : List Task) (id : Int) :
    (get_task tasks id = none ↔
       ¬(0 ≤ pyResolved tasks.length (id - 1) ∧
          pyResolved tasks.length (id - 1) < (tasks.length : Nat)) ∨
       (tasks.get? (pyResolved tasks.length (id - 1)).toNat).any Task.isDeleted = true) ∧
    (∀ t, get_task tasks id = some t →
       (0 ≤ pyResolved tasks.length (id - 1) ∧
        pyResolved tasks.length (id - 1) < (tasks.length : Nat)) ∧
       tasks.get? (pyResolved tasks.length (id - 1)).toNat = some t ∧
       t.isDeleted = false) := by
  rw [get_task_eq_bind, pyGet, pyIndex_eq_resolved]
  by_cases h : 0 ≤ pyResolved tasks.length (id - 1) ∧
      pyResolved tasks.length (id - 1) < (tasks.length : Nat)
  · rw [if_pos h]
    have hlt : (pyResolved tasks.length (id - 1)).toNat < tasks.length := by omega
    have hg := List.get?_eq_get hlt
    rw [Option.some_bind, hg]
    cases hdel : (tasks.get ⟨(pyResolved tasks.length (id - 1)).toNat, hlt⟩).isDeleted <;>
      simp [hdel, h, hg]
  · rw [if_neg h]
    simp [h]

/-- C3 counterexample: on a store holding one live task, getById(0)
returns that task via Python negative indexing even though the index
`0 - 1 = -1` lies outside the sequence's positions `0..length-1`. -/
theorem get_task_zero_returns :
    get_task [Task.mk 1 "buy milk" "todo" 0 0 false] 0 =
      some (Task.mk 1 "buy milk" "todo" 0 0 false) ∧ (0 : Int) - 1 < 0 := by
  refine ⟨rfl, by decide⟩

/-- C3 witness: the amended characterization at a concrete store and id. -/
theorem get_task_index_semantics_witness :
    (get_task [Task.mk 1 "a" "todo" 0 0 false] 1 = none ↔
       ¬(0 ≤ pyResolved 1 0 ∧ pyResolved 1 0 < (1 : Nat)) ∨
       ([Task.mk 1 "a" "todo" 0 0 false].get? (pyResolved 1 0).toNat).any Task.isDeleted = true) ∧
    (∀ t, get_task [Task.mk 1 "a" "todo" 0 0 false] 1 = some t →
       (0 ≤ pyResolved 1 0 ∧ pyResolved 1 0 < (1 : Nat)) ∧
       [Task.mk 1 "a" "todo" 0 0 false].get? (pyResolved 1 0).toNat = some t ∧
       t.isDeleted = false) :=
  get_task_index_semantics [Task.mk 1 "a" "todo" 0 0 false] 1

theorem save_task_eq (tasks : List Task) (t : Task) (now : Nat) :
    save_task tasks t now =
      if (tasks.length : Int) < t.id then
        some (tasks ++ [Task.mk t.id t.description t.status t.createdAt now t.isDeleted])
      else
        pySet tasks (t.id - 1) (Task.mk t.id t.description t.status t.createdAt now t.isDeleted) := by
  simp only [save_task]
  split_ifs with h
  · rw [pyInsert_append _ _ _ (by omega)]
  · rfl

/-- C4 amended: save stamps `updatedAt := now` and then, when the sequence
is shorter than `task.id`, appends the task at the end (index `length`,
which equals `task.id - 1` only when `task.id = length + 1`, because
`list.insert` clamps the insertion point); otherwise it overwrites the
element at the Python-resolved index `task.id - 1`. -/
theorem save_task_semantics (tasks : List Task) (t : Task) (now : Nat) :
    save_task tasks t now =
      if (tasks.length : Int) < t.id then
        some (tasks ++ [Task.mk t.id t.description t.status t.createdAt now t.isDeleted])
      else
        pySet tasks (t.id - 1) (Task.mk t.id t.description t.status t.createdAt now t.isDeleted) :=
  save_task_eq tasks t now

/-- C4 counterexample: saving a task with id 3 into an empty store places
it at index 0, not at index `3 - 1 = 2` (which does not exist in the
result), refuting the shift-based insert-at-`id - 1` reading. -/
theorem save_task_gap_appends :
    save_task [] (Task.mk 3 "x" "todo" 0 0 false) 5 =
      some [Task.mk 3 "x" "todo" 0 5 false] ∧
    [Task.mk 3 "x" "todo" 0 5 false].get? 2 = none := by
  refine ⟨rfl, rfl⟩

theorem mem_of_mem_list_tasks {tasks : List Task} {filt : Option String} {t : Task}
    (h : t ∈ list_tasks tasks filt) : t ∈ tasks ∧ t.isDeleted = false := by
  unfold list_tasks at h
  rw [List.mem_filter] at h
  refine ⟨h.1, ?_⟩
  have h2 := h.2
  simp only [Bool.and_eq_true, beq_iff_eq] at h2
  exact h2.2

/-- C5: removing a live task at position i (id i+1) in a well-formed
store returns true, keeps the record physically present at position i
with isDeleted set, hides it from every list() result, and makes getById
report it not found. -/
theorem remove_task_live_spec (tasks : List Task) (i : Nat) (now : Nat)
    (hwf : WellFormed tasks)
    (hi : i < tasks.length)
    (hlive : tasks[i].isDeleted = false) :
    remove_task tasks ((i : Int) + 1) now =
      some (tasks.set i { tasks[i] with isDeleted := true, updatedAt := now }, true) ∧
    (∀ filt t', t' ∈ list_tasks
        (tasks.set i { tasks[i] with isDeleted := true, updatedAt := now }) filt →
      t'.id ≠ (i : Int) + 1) ∧
    (tasks.set i { tasks[i] with isDeleted := true, updatedAt := now }).length
      = tasks.length ∧
    (tasks.set i { tasks[i] with isDeleted := true, updatedAt := now })[i]?
      = some { tasks[i] with isDeleted := true, updatedAt := now } ∧
    get_task (tasks.set i { tasks[i] with isDeleted := true, updatedAt := now })
      ((i : Int) + 1) = none := by
  have hidx : ((i : Int) + 1 - 1) = (i : Int) := by omega
  have hgt : get_task tasks ((i : Int) + 1) = some tasks[i] := by
    rw [get_task_eq_bind, hidx, pyGet_coe tasks i hi, List.get_eq_getElem]
    simp [hlive]
  have hid := wellFormed_id hwf i hi
  have hsave : save_task tasks { tasks[i] with isDeleted := true } now =
      some (tasks.set i { tasks[i] with isDeleted := true, updatedAt := now }) := by
    simp only [save_task]
    rw [if_neg (by simp only [hid]; omega)]
    have harg : ({ tasks[i] with isDeleted := true } : Task).id - 1 = (i : Int) := by
      simp only [hid]; omega
    rw [harg, pySet_coe tasks i hi]
  have hlen : (tasks.set i { tasks[i] with isDeleted := true, updatedAt := now }).length
      = tasks.length := List.length_set tasks i _
  refine ⟨?_, ?_, hlen, ?_, ?_⟩
  · simp only [remove_task, hgt, hsave]
  · intro filt t' hmem
    obtain ⟨hmem', hdel⟩ := mem_of_mem_list_tasks hmem
    rcases List.mem_iff_getElem.mp hmem' with ⟨j, hj, hj'⟩
    rw [List.getElem_set] at hj'
    by_cases hij : i = j
    · rw [if_pos hij] at hj'
      rw [← hj'] at hdel
      simp at hdel
    · rw [if_neg hij] at hj'
      have hj2 : j < tasks.length := by simpa [hlen] using hj
      have hjid := wellFormed_id hwf j hj2
      rw [hj'] at hjid
      rw [hjid]
      omega
  · exact List.getElem?_set_self hi
  · have hi2 : i < (tasks.set i
        { tasks[i] with isDeleted := true, updatedAt := now }).length := by
      simpa [hlen] using hi
    rw [get_task_eq_bind, hidx, pyGet_coe _ i hi2, List.get_eq_getElem]
    simp [List.getElem_set]

/-- C6 amended: when the Python-resolved index of id - 1 is out of range
or the resolved task is already soft-deleted, remove returns false and
leaves the store unchanged. -/
theorem remove_task_notfound_spec (tasks : List Task) (id : Int) (now : Nat)
    (h : (pyGet tasks (id - 1)).all (fun t => t.isDeleted) = true) :
    remove_task tasks id now = some (tasks, false) := by
  have hgt : get_task tasks id = none := by
    rw [get_task_eq_bind]
    cases hres : pyGet tasks (id - 1) with
    | none => rfl
    | some t =>
      rw [hres] at h
      simp only [Option.all_some] at h
      simp [h]
  simp [remove_task, hgt]

/-- C6 witness: removing an already-deleted task returns false, store
unchanged. -/
theorem remove_task_notfound_witness :
    (pyGet [Task.mk 1 "a" "todo" 0 0 true] (1 - 1)).all (fun t => t.isDeleted) = true ∧
    remove_task [Task.mk 1 "a" "todo" 0 0 true] 1 5 =
      some ([Task.mk 1 "a" "todo" 0 0 true], false) :=
  ⟨by decide, remove_task_notfound_spec _ 1 5 (by decide)⟩

/-- C6 counterexample: id 0 names no position (positions are id - 1 for
positive ids), yet remove(0) on a store holding one live task returns
true and rewrites the store, via Python negative indexing. -/
theorem remove_task_zero_mutates :
    remove_task [Task.mk 1 "a" "todo" 0 0 false] 0 5 =
      some ([Task.mk 1 "a" "todo" 0 5 true], true) := by decide

/-- C7: updating the status of a live task at position i (id i+1) with a
monotone clock returns true, persists the new status at position i, and
refreshes updatedAt to a value not below the previous one. -/
theorem update_task_status_live_spec (tasks : List Task) (i now : Nat) (s : String)
    (hs : s = "todo" ∨ s = "in-progress" ∨ s = "done")
    (hi : i < tasks.length)
    (hid : tasks[i].id = (i : Int) + 1)
    (hlive : tasks[i].isDeleted = false)
    (hclock : tasks[i].updatedAt ≤ now) :
    update_task_status tasks ((i : Int) + 1) s now =
      (tasks.set i { tasks[i] with status := s, updatedAt := now }, true) ∧
    ∃ h' : i < (tasks.set i { tasks[i] with status := s, updatedAt := now }).length,
      ((tasks.set i { tasks[i] with status := s, updatedAt := now }).get ⟨i, h'⟩).status = s ∧
      tasks[i].updatedAt ≤
        ((tasks.set i { tasks[i] with status := s, updatedAt := now }).get ⟨i, h'⟩).updatedAt := by
  have hidx : ((i : Int) + 1 - 1) = (i : Int) := by omega
  have hgt : get_task tasks ((i : Int) + 1) = some tasks[i] := by
    rw [get_task_eq_bind, hidx, pyGet_coe tasks i hi, List.get_eq_getElem]
    simp [hlive]
  have hsave : save_task tasks { tasks[i] with status := s } now =
      some (tasks.set i { tasks[i] with status := s, updatedAt := now }) := by
    simp only [save_task]
    rw [if_neg (by simp only [hid]; omega)]
    have harg : ({ tasks[i] with status := s } : Task).id - 1 = (i : Int) := by
      simp only [hid]; omega
    rw [harg, pySet_coe tasks i hi]
  have hi2 : i < (tasks.set i { tasks[i] with status := s, updatedAt := now }).length := by
    simpa using hi
  refine ⟨by simp only [update_task_status, hgt, hsave], hi2, ?_, ?_⟩ <;>
    · rw [List.get_eq_getElem]
      simp [List.getElem_set, hclock]

theorem load_tasks_file_roundtrip (l : List Task) :
    load_tasks_file (.records (l.map to_dict)) = (.records (l.map to_dict), .ok l) := by
  simp [load_tasks_file, parseAll_map_to_dict]

/-- C8: saving a task whose id points into the store (or just past its
end) succeeds, and reloading the rewritten file yields, at the task's
position, a task equal in id, description, status, createdAt and
isDeleted, with updatedAt strictly advanced. -/
theorem save_task_reload_roundtrip (tasks : List Task) (t : Task) (now : Nat)
    (hpos : 1 ≤ t.id)
    (hle : t.id ≤ (tasks.length : Int) + 1)
    (hadv : t.updatedAt < now) :
    ∃ tasks', save_task tasks t now = some tasks' ∧
      (load_tasks_file (.records (tasks'.map to_dict))).2 = .ok tasks' ∧
      ∃ h' : (t.id - 1).toNat < tasks'.length,
        tasks'[(t.id - 1).toNat].id = t.id ∧
        tasks'[(t.id - 1).toNat].description = t.description ∧
        tasks'[(t.id - 1).toNat].status = t.status ∧
        tasks'[(t.id - 1).toNat].createdAt = t.createdAt ∧
        tasks'[(t.id - 1).toNat].isDeleted = t.isDeleted ∧
        t.updatedAt < tasks'[(t.id - 1).toNat].updatedAt := by
  rw [save_task_eq]
  by_cases h : (tasks.length : Int) < t.id
  · rw [if_pos h]
    have hidn : (t.id - 1).toNat = tasks.length := by omega
    have h' : (t.id - 1).toNat <
        (tasks ++ [Task.mk t.id t.description t.status t.createdAt now t.isDeleted]).length := by
      simp [hidn]
    have hget : (tasks ++ [Task.mk t.id t.description t.status t.createdAt now t.isDeleted])[
        (t.id - 1).toNat] = Task.mk t.id t.description t.status t.createdAt now t.isDeleted := by
      rw [List.getElem_append_right (by omega)]
      simp [hidn]
    refine ⟨_, rfl, (load_tasks_file_roundtrip _).symm ▸ rfl, h', ?_⟩
    rw [hget]
    exact ⟨rfl, rfl, rfl, rfl, rfl, hadv⟩
  · rw [if_neg h]
    have hlt : (t.id - 1).toNat < tasks.length := by omega
    have hcast : (((t.id - 1).toNat : Nat) : Int) = t.id - 1 := by omega
    have hset : pySet tasks (t.id - 1)
        (Task.mk t.id t.description t.status t.createdAt now t.isDeleted) =
        some (tasks.set (t.id - 1).toNat
          (Task.mk t.id t.description t.status t.createdAt now t.isDeleted)) := by
      rw [← hcast, pySet_coe _ _ hlt]
      simp
    have h' : (t.id - 1).toNat < (tasks.set (t.id - 1).toNat
        (Task.mk t.id t.description t.status t.createdAt now t.isDeleted)).length := by
      simpa using hlt
    have hget : (tasks.set (t.id - 1).toNat
        (Task.mk t.id t.description t.status t.createdAt now t.isDeleted))[
        (t.id - 1).toNat] = Task.mk t.id t.description t.status t.createdAt now t.isDeleted := by
      simp [List.getElem_set]
    refine ⟨_, hset, ?_, h', ?_⟩
    · exact (load_tasks_file_roundtrip _).symm ▸ rfl
    · rw [hget]
      exact ⟨rfl, rfl, rfl, rfl, rfl, hadv⟩

theorem add_task_eq (tasks : List Task) (d : String) (n1 n2 n3 : Nat) :
    add_task tasks d n1 n2 n3 =
      (tasks ++ [Task.mk ((tasks.length : Int) + 1) d "todo" n1 n3 false], true) := by
  have hsave : save_task tasks (Task.mk ((tasks.length : Int) + 1) d "todo" n1 n2 false) n3 =
      some (tasks ++ [Task.mk ((tasks.length : Int) + 1) d "todo" n1 n3 false]) := by
    simp only [save_task]
    rw [if_pos (by omega), pyInsert_append _ _ _ (by omega)]
  simp [add_task, hsave]

theorem mem_of_pyGet {tasks : List Task} {i : Int} {t : Task}
    (h : pyGet tasks i = some t) : t ∈ tasks := by
  unfold pyGet at h
  cases hidx : pyIndex tasks.length i with
  | none => simp [hidx] at h
  | some n =>
    simp only [hidx, Option.some_bind] at h
    exact List.get?_mem h

theorem mem_of_get_task {tasks : List Task} {id : Int} {t : Task}
    (h : get_task tasks id = some t) : t ∈ tasks := by
  rw [get_task_eq_bind] at h
  cases hres : pyGet tasks (id - 1) with
  | none => simp [hres] at h
  | some u =>
    simp only [hres, Option.some_bind] at h
    split_ifs at h with hdel
    exact (Option.some_inj.mp h) ▸ mem_of_pyGet hres

theorem mem_of_save_task {tasks tasks' : List Task} {t : Task} {now : Nat}
    (h : save_task tasks t now = some tasks') :
    ∀ x ∈ tasks', x ∈ tasks ∨ x = { t with updatedAt := now } := by
  simp only [save_task] at h
  split_ifs at h with hlt
  · cases h
    intro x hx
    unfold pyInsert at hx
    rcases List.mem_append.mp hx with hx | hx
    · exact Or.inl (List.take_subset _ _ hx)
    · rcases List.mem_cons.mp hx with hx | hx
      · exact Or.inr hx
      · exact Or.inl (List.drop_subset _ _ hx)
  · unfold pySet at h
    cases hidx : pyIndex tasks.length (t.id - 1) with
    | none => simp [hidx] at h
    | some n =>
      simp only [hidx, Option.map_some] at h
      cases h
      intro x hx
      exact List.mem_or_eq_of_mem_set hx

theorem ClockInv_step {st st' : List Task × Nat}
    (hs : ManagerStep st st') (hinv : ClockInv st) : ClockInv st' := by
  cases hs with
  | addStep ts clk d n1 n2 n3 h1 h2 h3 =>
    rw [add_task_eq]
    intro t ht
    rcases List.mem_append.mp ht with ht | ht
    · have hb := hinv t ht
      exact ⟨hb.1, by omega⟩
    · rcases List.mem_cons.mp ht with ht | ht
      · subst ht
        exact ⟨show n1 ≤ n3 by omega, le_rfl⟩
      · cases ht
  | removeStep ts clk id n ts' b h hr =>
    simp only [remove_task] at hr
    cases hget : get_task ts id with
    | none =>
      simp only [hget, Option.some_inj] at hr
      cases hr
      intro t ht
      have hb := hinv t ht
      exact ⟨hb.1, by omega⟩
    | some u =>
      simp only [hget] at hr
      have hu := hinv u (mem_of_get_task hget)
      cases hsv : save_task ts { u with isDeleted := true } n with
      | none => simp [hsv] at hr
      | some ts'' =>
        simp only [hsv, Option.some_inj] at hr
        cases hr
        intro t ht
        rcases mem_of_save_task hsv t ht with ht' | ht'
        · have hb := hinv t ht'
          exact ⟨hb.1, by omega⟩
        · subst ht'
          exact ⟨show u.createdAt ≤ n by omega, le_rfl⟩
  | updateStep ts clk id s n h =>
    cases hget : get_task ts id with
    | none =>
      simp only [update_task_status, hget]
      intro t ht
      have hb := hinv t ht
      exact ⟨hb.1, by omega⟩
    | some u =>
      have hu := hinv u (mem_of_get_task hget)
      cases hsv : save_task ts { u with status := s } n with
      | none =>
        simp only [update_task_status, hget, hsv]
        intro t ht
        have hb := hinv t ht
        exact ⟨hb.1, by omega⟩
      | some ts'' =>
        simp only [update_task_status, hget, hsv]
        intro t ht
        rcases mem_of_save_task hsv t ht with ht' | ht'
        · have hb := hinv t ht'
          exact ⟨hb.1, by omega⟩
        · subst ht'
          exact ⟨show u.createdAt ≤ n by omega, le_rfl⟩

/-- C9: in every store state reachable from the empty store through the
Manager operations add, remove and updateStatus under a monotone clock,
every record satisfies createdAt ≤ updatedAt. -/
theorem reachable_updatedAt_ge_createdAt (st : List Task × Nat)
    (h : ManagerReachable st) : ∀ t ∈ st.1, t.createdAt ≤ t.updatedAt := by
  have hinv : ClockInv st := by
    induction h with
    | empty => intro t ht; cases ht
    | step h hs ih => exact ClockInv_step hs ih
  intro t ht
  exact (hinv t ht).1

/-- C9 witness: the invariant at a concrete reachable state. -/
theorem reachable_updatedAt_ge_createdAt_witness :
    ManagerReachable ([Task.mk 1 "buy milk" "todo" 1 2 false], 2) ∧
    ∀ t ∈ [Task.mk 1 "buy milk" "todo" 1 2 false], t.createdAt ≤ t.updatedAt := by
  have hr : ManagerReachable ([Task.mk 1 "buy milk" "todo" 1 2 false], 2) :=
    ManagerReachable.step ManagerReachable.empty
      (ManagerStep.addStep [] 0 "buy milk" 1 1 2 (by omega) (by omega) (by omega))
  exact ⟨hr, reachable_updatedAt_ge_createdAt _ hr⟩

/-- C10: a nonpositive id whose Python index id - 1 wraps to a live task
makes getById return that task instead of failing; for id = 0 on a
nonempty store that is the last task. -/
theorem get_task_nonpositive_wrap (tasks : List Task) (id : Int) (t : Task)
    (hid : id ≤ 0)
    (hres : pyGet tasks (id - 1) = some t)
    (hlive : t.isDeleted = false) :
    get_task tasks id = some t ∧
    (id = 0 → ∀ hne : tasks ≠ [], t = tasks.getLast hne) := by
  constructor
  · rw [get_task_eq_bind, hres]
    simp [hlive]
  · intro h0 hne
    subst h0
    have hlen : 0 < tasks.length := List.length_pos.mpr hne
    have h1 : pyIndex tasks.length ((0 : Int) - 1) = some (tasks.length - 1) := by
      unfold pyIndex
      rw [if_neg (by omega), if_pos (by simp; omega)]
      norm_num
    rw [pyGet, h1] at hres
    simp only [Option.some_bind] at hres
    have hgl := List.get?_eq_get (show tasks.length - 1 < tasks.length by omega)
    rw [hgl] at hres
    rw [List.getLast_eq_get]
    exact (Option.some_inj.mp hres).symm

/-- C10 witness: getById(0) on a two-task store returns the second
(last) task. -/
theorem get_task_nonpositive_wrap_witness :
    (0 : Int) ≤ 0 ∧
    pyGet [Task.mk 1 "a" "todo" 0 0 false, Task.mk 2 "b" "done" 0 0 false] (0 - 1) =
      some (Task.mk 2 "b" "done" 0 0 false) ∧
    (get_task [Task.mk 1 "a" "todo" 0 0 false, Task.mk 2 "b" "done" 0 0 false] 0 =
      some (Task.mk 2 "b" "done" 0 0 false) ∧
    ((0 : Int) = 0 →
      ∀ hne : [Task.mk 1 "a" "todo" 0 0 false, Task.mk 2 "b" "done" 0 0 false] ≠ [],
        Task.mk 2 "b" "done" 0 0 false =
          [Task.mk 1 "a" "todo" 0 0 false, Task.mk 2 "b" "done" 0 0 false].getLast hne)) :=
  ⟨by decide, by decide,
    get_task_nonpositive_wrap _ 0 _ (by decide) (by decide) (by decide)⟩

/-- C5 witness: removing the live task of a singleton well-formed store. -/
theorem remove_task_live_spec_witness :
    WellFormed [Task.mk 1 "buy milk" "todo" 0 0 false] ∧
    remove_task [Task.mk 1 "buy milk" "todo" 0 0 false] 1 5 =
      some ([Task.mk 1 "buy milk" "todo" 0 5 true], true) :=
  ⟨by decide,
    (remove_task_live_spec [Task.mk 1 "buy milk" "todo" 0 0 false] 0 5
      (by decide) (by decide) (by decide)).1⟩

/-- C7 witness: marking the only task done. -/
theorem update_task_status_live_spec_witness :
    ("done" = "todo" ∨ "done" = "in-progress" ∨ "done" = "done") ∧
    update_task_status [Task.mk 1 "buy milk" "todo" 0 3 false] 1 "done" 5 =
      ([Task.mk 1 "buy milk" "done" 0 5 false], true) :=
  ⟨by simp,
    (update_task_status_live_spec [Task.mk 1 "buy milk" "todo" 0 3 false] 0 5 "done"
      (by simp) (by decide) (by decide) (by decide) (by decide)).1⟩

/-- C8 witness: saving a fresh task into an empty store and reloading. -/
theorem save_task_reload_roundtrip_witness :
    (1 : Int) ≤ 1 ∧ (1 : Int) ≤ ((([] : List Task)).length : Int) + 1 ∧ (0 : Nat) < 5 ∧
    (∃ tasks', save_task [] (Task.mk 1 "buy milk" "todo" 0 0 false) 5 = some tasks' ∧
      (load_tasks_file (.records (tasks'.map to_dict))).2 = .ok tasks' ∧
      ∃ h' : (((1 : Int)) - 1).toNat < tasks'.length,
        tasks'[((1 : Int) - 1).toNat].id = 1 ∧
        tasks'[((1 : Int) - 1).toNat].description = "buy milk" ∧
        tasks'[((1 : Int) - 1).toNat].status = "todo" ∧
        tasks'[((1 : Int) - 1).toNat].createdAt = 0 ∧
        tasks'[((1 : Int) - 1).toNat].isDeleted = false ∧
        (0 : Nat) < tasks'[((1 : Int) - 1).toNat].updatedAt) :=
  ⟨by decide, by decide, by decide,
    save_task_reload_roundtrip [] (Task.mk 1 "buy milk" "todo" 0 0 false) 5
      (by decide) (by decide) (by decide)⟩

end TaskTracker
